import Mathlib

/-!
Verification of the Google Drive proxy core (`src/utils/googleDrive.ts`):
the folder scope guard `isUnderDefaultFolder`, the overwrite-aware upload
resolution (`findExistingFile` / `processFileUpload`), folder validation
(`validateFolder`) and `deleteFolderContents`.

The Drive Client collaborator (`src/utils/oauth.ts`: `getDriveFileInfo`,
`listDriveFiles`, `deleteDriveFile`, `refreshAccessToken`) is modelled as an
environment of fallible capabilities.  Every embedded operation additionally
returns the ordered list of provider calls it performed, so that call-count
properties ("zero provider calls", "no listing call") are statable.

The TypeScript recursion in `isUnderDefaultFolder` has no structural
decrease (and no depth bound in the source), so it is embedded with an
explicit fuel parameter: a result of `none` means the recursion has not
returned within the given fuel; `some b` means the source function returns
`b` (at any sufficient depth, by monotonicity).
-/

/-- Errors raised by the Drive Client collaborator
(`fails with NotFound | Unauthorized | NetworkError`). -/
inductive DriveErr
  | notFound
  | unauthorized
  | network
deriving DecidableEq, Repr

/-- One entry of a `listDriveFiles` response: `files(id,name,mimeType)`.
`mimeType` is optional in `DriveFilesListResponseSchema`. -/
structure DriveFile where
  id : String
  name : String
  mimeType : Option String
deriving DecidableEq, Repr

/-- A call made to an external collaborator, recorded in order. -/
inductive DriveCall
  | refreshToken
  | getFileInfo (fileId : String)
  | listFiles (parentFolderId : String)
  | deleteFile (fileId : String)
  | upload (parentFolderId : String) (existingFileId : Option String)
deriving DecidableEq, Repr

/-- The external collaborators (`oauth.ts`), as fallible capabilities.
`getParents` models `getDriveFileInfo(folderId, _, 'parents').parents`:
the `parents` field is optional (`z.array(z.string()).optional()`), hence
`Option (List String)`.  `getFileInfo` models the full-field
`getDriveFileInfo(folderId, accessToken)` call made by `validateFolder`
(only its success or failure matters to the logic).  `uploadFile` models the
multipart upload POST/PATCH; its failures are thrown to the caller. -/
structure DriveEnv where
  getToken : Except DriveErr String
  getParents : String → Except DriveErr (Option (List String))
  getFileInfo : String → Except DriveErr Unit
  listFiles : String → Except DriveErr (List DriveFile)
  deleteFile : String → Except DriveErr Unit
  uploadFile : String → Option String → Except DriveErr Unit

/-- The `for (const parentId of data.parents)` loop of
`isUnderDefaultFolder`: evaluate `check` on each parent in order, return
`some true` on the first success (short-circuit), `some false` once all
parents are exhausted; `none` (fuel exhausted inside a branch) aborts the
scan.  The second component is the accumulated provider-call trace. -/
def scanParents (check : String → Option Bool × List DriveCall) :
    List String → Option Bool × List DriveCall
  | [] => (some false, [])
  | p :: ps =>
    match check p with
    | (none, t) => (none, t)
    | (some true, t) => (some true, t)
    | (some false, t) =>
      match scanParents check ps with
      | (r, t2) => (r, t ++ t2)

/-- Embedding of `isUnderDefaultFolder(folderId, defaultFolderId, accessToken)` from
`googleDrive.ts`, with explicit fuel.  Base case: `folderId ===
defaultFolderId` returns true with no provider call.  Otherwise it fetches
`parents` via `getDriveFileInfo`; a thrown error is caught and folds to
false; a missing (`!data.parents`) or empty parent list yields false;
otherwise each parent is checked recursively in order. -/
def isUnderDefaultFolder (env : DriveEnv) (defaultFolderId : String) :
    Nat → String → Option Bool × List DriveCall
  | 0, _ => (none, [])
  | fuel + 1, folderId =>
    if folderId = defaultFolderId then
      (some true, [])
    else
      match env.getParents folderId with
      | Except.error _ => (some false, [DriveCall.getFileInfo folderId])
      | Except.ok none => (some false, [DriveCall.getFileInfo folderId])
      | Except.ok (some parents) =>
        if parents.isEmpty then
          (some false, [DriveCall.getFileInfo folderId])
        else
          match scanParents (isUnderDefaultFolder env defaultFolderId fuel) parents with
          | (r, t) => (r, DriveCall.getFileInfo folderId :: t)

/-- Embedding of `findExistingFile(fileName, parentFolderId, accessToken)`: list the
children of `parentFolderId`, filter by exact name equality, return the
first match's id, or `none` when there is no match.  A thrown listing error
is caught and folds to `none` (the source swallows it). -/
def findExistingFile (env : DriveEnv) (fileName parentFolderId : String) :
    Option String × List DriveCall :=
  match env.listFiles parentFolderId with
  | Except.error _ => (none, [DriveCall.listFiles parentFolderId])
  | Except.ok files =>
    match files.filter (fun f => f.name = fileName) with
    | [] => (none, [DriveCall.listFiles parentFolderId])
    | f :: _ => (some f.id, [DriveCall.listFiles parentFolderId])

/-- The parent chain of `f` reaches `root` in `n` steps, each step moving
to some member of the parent list returned (successfully) by the Drive
Client. -/
inductive ChainToRoot (env : DriveEnv) (root : String) : String → Nat → Prop
  | refl : ChainToRoot env root root 0
  | step (f p : String) (ps : List String) (n : Nat)
      (hps : env.getParents f = Except.ok (some ps)) (hmem : p ∈ ps)
      (hp : ChainToRoot env root p n) : ChainToRoot env root f (n + 1)

/-- The parent graph exposed by `env` admits a rank strictly decreasing
along parent links: every successful lookup is acyclic with bounded depth. -/
def RankedParents (env : DriveEnv) (rank : String → Nat) : Prop :=
  ∀ f ps, env.getParents f = Except.ok (some ps) → ∀ p ∈ ps, rank p < rank f

/-- The scope walk on `f` never returns: it exhausts every fuel budget. -/
def divergesOn (env : DriveEnv) (root f : String) : Prop :=
  ∀ fuel, (isUnderDefaultFolder env root fuel f).1 = none

/-- Result shape of `validateFolder`: `{ valid, error?, details? }`. -/
structure ValidationResult where
  valid : Bool
  error : Option String
  details : Option String
deriving DecidableEq, Repr

/-- Embedding of `validateFolder(folderId, defaultFolderId, accessToken)`: a falsy
(empty) `folderId` or one equal to the default folder id is valid with no
provider call; otherwise `getDriveFileInfo` must succeed (a throw is caught
as `Invalid folder ID`) and the folder must be under the default folder
(otherwise `Unauthorized folder access`).  `none` means the inner scope
walk did not return within `fuel`. -/
def validateFolder (env : DriveEnv) (fuel : Nat) (folderId defaultFolderId : String) :
    Option ValidationResult × List DriveCall :=
  if folderId = "" ∨ folderId = defaultFolderId then
    (some { valid := true, error := none, details := none }, [])
  else
    match env.getFileInfo folderId with
    | Except.error _ =>
      (some { valid := false, error := some "Invalid folder ID",
              details := some ("Folder " ++ folderId ++ " not found") },
       [DriveCall.getFileInfo folderId])
    | Except.ok _ =>
      match isUnderDefaultFolder env defaultFolderId fuel folderId with
      | (none, t) => (none, DriveCall.getFileInfo folderId :: t)
      | (some true, t) =>
        (some { valid := true, error := none, details := none },
         DriveCall.getFileInfo folderId :: t)
      | (some false, t) =>
        (some { valid := false, error := some "Unauthorized folder access",
                details := some ("Folder " ++ folderId ++
                  " is not under the allowed default folder") },
         DriveCall.getFileInfo folderId :: t)

/-- The uploaded file, as far as the decision logic observes it:
`file.name` (the empty string standing for a falsy name, which the source
replaces by `'untitled'`). -/
structure FileData where
  name : String
deriving DecidableEq, Repr

/-- The effective upload name, `file.name || 'untitled'`. -/
def effectiveFileName (f : FileData) : String :=
  if f.name = "" then "untitled" else f.name

/-- Result shape of `processFileUpload`: `{ success, error?, details? }`. -/
structure UploadOutcome where
  success : Bool
  error : Option String
  details : Option String
deriving DecidableEq, Repr

/-- Embedding of `processFileUpload(file, folderId, overwrite, credentials,
defaultFolderId)`.  A missing file fails immediately; the access token is
fetched (a token failure is thrown to the caller, `Except.error`); the
parent folder is `folderId || defaultFolderId` and is validated; when
`overwrite` is requested, `findExistingFile` searches for a same-named
child; finally `uploadFile` is called with the resolved existing file id
(`null` meaning create).  An upload failure is thrown to the caller.
The outer `Option` is `none` when the scope walk inside validation did not
return within `fuel`. -/
def processFileUpload (env : DriveEnv) (fuel : Nat) (file : Option FileData)
    (folderId : String) (overwrite : Bool) (defaultFolderId : String) :
    Option (Except DriveErr UploadOutcome) × List DriveCall :=
  match file with
  | none =>
    (some (Except.ok { success := false, error := some "No file provided",
                       details := none }), [])
  | some f =>
    match env.getToken with
    | Except.error e => (some (Except.error e), [DriveCall.refreshToken])
    | Except.ok _ =>
      let parentFolderId := if folderId = "" then defaultFolderId else folderId
      match validateFolder env fuel parentFolderId defaultFolderId with
      | (none, t) => (none, DriveCall.refreshToken :: t)
      | (some v, t) =>
        if v.valid = false then
          (some (Except.ok { success := false, error := v.error,
                             details := v.details }),
           DriveCall.refreshToken :: t)
        else
          let search :=
            if overwrite then
              findExistingFile env (effectiveFileName f) parentFolderId
            else
              (none, [])
          match search with
          | (existingFileId, t2) =>
            match env.uploadFile parentFolderId existingFileId with
            | Except.error e =>
              (some (Except.error e),
               DriveCall.refreshToken :: (t ++ (t2 ++
                 [DriveCall.upload parentFolderId existingFileId])))
            | Except.ok _ =>
              (some (Except.ok { success := true, error := none,
                                 details := none }),
               DriveCall.refreshToken :: (t ++ (t2 ++
                 [DriveCall.upload parentFolderId existingFileId])))

/-- Result shape of `deleteFolderContents`:
`{ success, message, error?, details? }`. -/
structure DeleteOutcome where
  success : Bool
  message : String
  error : Option String
  details : Option String
deriving DecidableEq, Repr

/-- The per-file deletion loop of `deleteFolderContents`: delete each file
in order, counting successes and collecting per-file error messages; a
failed deletion never aborts the loop.  Returns
(deletedCount, error messages, provider calls). -/
def deleteFilesLoop (env : DriveEnv) : List DriveFile → Nat × List String × List DriveCall
  | [] => (0, [], [])
  | f :: fs =>
    match env.deleteFile f.id with
    | Except.ok _ =>
      match deleteFilesLoop env fs with
      | (n, errs, calls) => (n + 1, errs, DriveCall.deleteFile f.id :: calls)
    | Except.error _ =>
      match deleteFilesLoop env fs with
      | (n, errs, calls) =>
        (n, ("Error deleting " ++ f.name) :: errs, DriveCall.deleteFile f.id :: calls)

/-- The children of a listing that `deleteFolderContents` deletes:
`!file.mimeType || file.mimeType !== 'application/vnd.google-apps.folder'`. -/
def nonFolderFiles (files : List DriveFile) : List DriveFile :=
  files.filter (fun f =>
    f.mimeType = none ∨ f.mimeType ≠ some "application/vnd.google-apps.folder")

/-- Embedding of `deleteFolderContents(folderId, credentials, defaultFolderId)`: a falsy
folder id fails immediately; the token is fetched (failure thrown); the
folder must be under the default folder; the children are listed (a listing
failure is thrown), folders are filtered out, and each remaining file is
deleted, failures being only counted into the returned message. -/
def deleteFolderContents (env : DriveEnv) (fuel : Nat) (folderId : String)
    (defaultFolderId : String) :
    Option (Except DriveErr DeleteOutcome) × List DriveCall :=
  if folderId = "" then
    (some (Except.ok { success := false, message := "",
                       error := some "Folder ID is required", details := none }), [])
  else
    match env.getToken with
    | Except.error e => (some (Except.error e), [DriveCall.refreshToken])
    | Except.ok _ =>
      match isUnderDefaultFolder env defaultFolderId fuel folderId with
      | (none, t) => (none, DriveCall.refreshToken :: t)
      | (some false, t) =>
        (some (Except.ok { success := false, message := "",
                           error := some "Unauthorized folder access",
                           details := some ("Folder " ++ folderId ++
                             " is not under the allowed default folder") }),
         DriveCall.refreshToken :: t)
      | (some true, t) =>
        match env.listFiles folderId with
        | Except.error e =>
          (some (Except.error e),
           DriveCall.refreshToken :: (t ++ [DriveCall.listFiles folderId]))
        | Except.ok files =>
          match deleteFilesLoop env (nonFolderFiles files) with
          | (deletedCount, errs, calls) =>
            (some (Except.ok { success := true,
                               message := "Deleted " ++ toString deletedCount ++
                                 " files from folder. " ++
                                 (if errs.length > 0 then
                                    "Errors: " ++ toString errs.length
                                  else ""),
                               error := none, details := none }),
             DriveCall.refreshToken :: (t ++ (DriveCall.listFiles folderId :: calls)))

/-- The file ids deleted by a call trace (the `deleteDriveFile` calls it
contains, in order). -/
def deletedIds : List DriveCall → List String
  | [] => []
  | DriveCall.deleteFile i :: cs => i :: deletedIds cs
  | _ :: cs => deletedIds cs

/-! ### Concrete test environments -/

/-- Mime type marking a folder entry. -/
def folderMime : String := "application/vnd.google-apps.folder"

/-- A single child `C` whose only parent is the root `R`. -/
def envChain : DriveEnv where
  getToken := Except.ok "tok"
  getParents := fun f =>
    if f = "C" then Except.ok (some ["R"]) else Except.error DriveErr.notFound
  getFileInfo := fun _ => Except.ok ()
  listFiles := fun _ => Except.ok []
  deleteFile := fun _ => Except.ok ()
  uploadFile := fun _ _ => Except.ok ()

/-- Every folder is its own parent: a one-node cycle in the parent graph. -/
def envCycle : DriveEnv where
  getToken := Except.ok "tok"
  getParents := fun f => Except.ok (some [f])
  getFileInfo := fun _ => Except.ok ()
  listFiles := fun _ => Except.ok []
  deleteFile := fun _ => Except.ok ()
  uploadFile := fun _ _ => Except.ok ()

/-- Every parent lookup fails with a network error. -/
def envAllFail : DriveEnv where
  getToken := Except.ok "tok"
  getParents := fun _ => Except.error DriveErr.network
  getFileInfo := fun _ => Except.ok ()
  listFiles := fun _ => Except.ok []
  deleteFile := fun _ => Except.ok ()
  uploadFile := fun _ _ => Except.ok ()

/-- Environment where `G` has parent `P` and `P` has an empty parent list
(an orphan chain that never reaches the root). -/
def envOrphan : DriveEnv where
  getToken := Except.ok "tok"
  getParents := fun f =>
    if f = "G" then Except.ok (some ["P"])
    else if f = "P" then Except.ok (some [])
    else Except.error DriveErr.notFound
  getFileInfo := fun _ => Except.ok ()
  listFiles := fun _ => Except.ok []
  deleteFile := fun _ => Except.ok ()
  uploadFile := fun _ _ => Except.ok ()

/-- Folder `F` contains two children both named `a.txt` (ids `x` then `y`). -/
def envDup : DriveEnv where
  getToken := Except.ok "tok"
  getParents := fun _ => Except.error DriveErr.notFound
  getFileInfo := fun _ => Except.ok ()
  listFiles := fun p =>
    if p = "F" then
      Except.ok [{ id := "x", name := "a.txt", mimeType := none },
                 { id := "y", name := "a.txt", mimeType := none }]
    else Except.ok []
  deleteFile := fun _ => Except.ok ()
  uploadFile := fun _ _ => Except.ok ()

/-- Every listing call fails with a network error; uploads succeed. -/
def envSearchFail : DriveEnv where
  getToken := Except.ok "tok"
  getParents := fun _ => Except.error DriveErr.notFound
  getFileInfo := fun _ => Except.ok ()
  listFiles := fun _ => Except.error DriveErr.network
  deleteFile := fun _ => Except.ok ()
  uploadFile := fun _ _ => Except.ok ()

/-- Folder `D` (child of the root `R`) contains a subfolder and two plain
files; deleting file `f1` fails, deleting `f2` succeeds. -/
def envDelete : DriveEnv where
  getToken := Except.ok "tok"
  getParents := fun f =>
    if f = "D" then Except.ok (some ["R"]) else Except.error DriveErr.notFound
  getFileInfo := fun _ => Except.ok ()
  listFiles := fun p =>
    if p = "D" then
      Except.ok [{ id := "sub", name := "Sub", mimeType := some folderMime },
                 { id := "f1", name := "a", mimeType := some "text/plain" },
                 { id := "f2", name := "b", mimeType := none }]
    else Except.ok []
  deleteFile := fun i =>
    if i = "f1" then Except.error DriveErr.network else Except.ok ()
  uploadFile := fun _ _ => Except.ok ()

example : isUnderDefaultFolder envChain "R" 2 "C" =
    (some true, [DriveCall.getFileInfo "C"]) := by decide
example : isUnderDefaultFolder envChain "R" 1 "R" = (some true, []) := by decide
example : isUnderDefaultFolder envOrphan "R" 3 "G" =
    (some false, [DriveCall.getFileInfo "G", DriveCall.getFileInfo "P"]) := by decide
example : (isUnderDefaultFolder envCycle "R" 5 "A").1 = none := by decide
example : findExistingFile envDup "a.txt" "F" =
    (some "x", [DriveCall.listFiles "F"]) := by decide

/-! ### Helper lemmas -/

/-- The parent scan short-circuits: once a parent checks in scope, the scan
returns true with that branch's trace, without touching later parents. -/
theorem scanParents_shortcircuit (check : String → Option Bool × List DriveCall)
    (p : String) (ps : List String) (t : List DriveCall)
    (h : check p = (some true, t)) :
    scanParents check (p :: ps) = (some true, t) := by
  simp [scanParents, h]

/-- If every parent checks out of scope, the scan exhausts the list and
returns false. -/
theorem scanParents_all_false (check : String → Option Bool × List DriveCall)
    (ps : List String) (h : ∀ p ∈ ps, (check p).1 = some false) :
    (scanParents check ps).1 = some false := by
  induction ps with
  | nil => simp [scanParents]
  | cons q qs ih =>
    have hq := h q (List.mem_cons_self q qs)
    cases hcq : check q with
    | mk r t =>
      rw [hcq] at hq
      simp only at hq
      subst hq
      cases hs : scanParents check qs with
      | mk r2 t2 =>
        have h2 : r2 = some false := by
          have := ih (fun p hp => h p (List.mem_cons_of_mem q hp))
          rw [hs] at this
          exact this
        simp [scanParents, hcq, hs, h2]

/-- If some member of the scanned list checks in scope (or its check did
not return), and the whole scan returned, then the scan returned true. -/
theorem scanParents_true_of_mem {check : String → Option Bool × List DriveCall}
    {ps : List String} {p : String} (hmem : p ∈ ps)
    (hp : (check p).1 = none ∨ (check p).1 = some true)
    (hne : (scanParents check ps).1 ≠ none) :
    (scanParents check ps).1 = some true := by
  induction ps with
  | nil => cases hmem
  | cons q qs ih =>
    cases hcq : check q with
    | mk r t =>
      cases hs : scanParents check qs with
      | mk r2 t2 =>
        rcases List.mem_cons.mp hmem with hq | hq
        · subst hq
          rw [hcq] at hp
          rcases hp with hp | hp
          · simp only at hp
            subst hp
            rw [scanParents, hcq] at hne
            exact absurd rfl hne
          · simp only at hp
            subst hp
            simp [scanParents, hcq]
        · cases r with
          | none =>
            rw [scanParents, hcq] at hne
            exact absurd rfl hne
          | some b =>
            cases b with
            | true => simp [scanParents, hcq]
            | false =>
              have h2 : r2 ≠ none := by
                rw [scanParents, hcq, hs] at hne
                simpa using hne
              have := ih hq (by rw [hs]; exact h2)
              rw [hs] at this
              simp only at this
              simp [scanParents, hcq, hs, this]

/-- Soundness of the ancestor walk: if the parent chain of `f` reaches the
root in `n` steps and the walk returns within `fuel > n`, it returns true. -/
theorem chain_reaches_true {env : DriveEnv} {root : String} :
    ∀ {f : String} {n : Nat}, ChainToRoot env root f n →
    ∀ {fuel : Nat}, n < fuel →
    (isUnderDefaultFolder env root fuel f).1 ≠ none →
    (isUnderDefaultFolder env root fuel f).1 = some true := by
  intro f n h
  induction h with
  | refl =>
    intro fuel hlt _
    cases fuel with
    | zero => omega
    | succ k => simp [isUnderDefaultFolder]
  | step f p ps n hps hmem hp ih =>
    intro fuel hlt hne
    cases fuel with
    | zero => omega
    | succ k =>
      by_cases hfr : f = root
      · subst hfr
        simp [isUnderDefaultFolder]
      · have hpsne : ps.isEmpty = false := by
          cases ps with
          | nil => cases hmem
          | cons a as => rfl
        cases hs : scanParents (isUnderDefaultFolder env root k) ps with
        | mk r t =>
          have hgoal : (isUnderDefaultFolder env root (k + 1) f).1 = r := by
            simp [isUnderDefaultFolder, hfr, hps, hpsne, hs]
          rw [hgoal] at hne ⊢
          have hcond : (isUnderDefaultFolder env root k p).1 = none ∨
              (isUnderDefaultFolder env root k p).1 = some true := by
            by_cases hnp : (isUnderDefaultFolder env root k p).1 = none
            · exact Or.inl hnp
            · exact Or.inr (ih (by omega) hnp)
          have := scanParents_true_of_mem hmem hcond (by rw [hs]; exact hne)
          rw [hs] at this
          exact this

/-- If every member's check returns, the parent scan returns. -/
theorem scanParents_ne_none {check : String → Option Bool × List DriveCall}
    {ps : List String} (h : ∀ p ∈ ps, (check p).1 ≠ none) :
    (scanParents check ps).1 ≠ none := by
  induction ps with
  | nil => simp [scanParents]
  | cons q qs ih =>
    have hq := h q (List.mem_cons_self q qs)
    cases hcq : check q with
    | mk r t =>
      rw [hcq] at hq
      cases r with
      | none => exact absurd rfl hq
      | some b =>
        cases b with
        | true => simp [scanParents, hcq]
        | false =>
          cases hs : scanParents check qs with
          | mk r2 t2 =>
            have h2 : r2 ≠ none := by
              have := ih (fun p hp => h p (List.mem_cons_of_mem q hp))
              rw [hs] at this
              exact this
            simp [scanParents, hcq, hs]
            exact h2

/-- On a parent graph admitting a strictly decreasing rank, the ancestor
walk returns (with a boolean) as soon as the fuel exceeds the rank. -/
theorem ranked_terminates {env : DriveEnv} {rank : String → Nat}
    (hr : RankedParents env rank) :
    ∀ (fuel : Nat) (f root : String), rank f < fuel →
    (isUnderDefaultFolder env root fuel f).1 ≠ none := by
  intro fuel
  induction fuel with
  | zero => intro f root h; omega
  | succ k ih =>
    intro f root hlt
    by_cases hfr : f = root
    · simp [isUnderDefaultFolder, hfr]
    · cases hgp : env.getParents f with
      | error e => simp [isUnderDefaultFolder, hfr, hgp]
      | ok po =>
        cases po with
        | none => simp [isUnderDefaultFolder, hfr, hgp]
        | some ps =>
          cases hemp : ps.isEmpty with
          | true => simp [isUnderDefaultFolder, hfr, hgp, hemp]
          | false =>
            cases hs : scanParents (isUnderDefaultFolder env root k) ps with
            | mk r t =>
              have hne : r ≠ none := by
                have hmem : ∀ p ∈ ps, (isUnderDefaultFolder env root k p).1 ≠ none := by
                  intro p hp
                  apply ih
                  have := hr f ps hgp p hp
                  omega
                have := scanParents_ne_none hmem
                rw [hs] at this
                exact this
              simp [isUnderDefaultFolder, hfr, hgp, hemp, hs]
              exact hne

/-- Calls made by a parent scan all come from the per-parent checks. -/
theorem scanParents_calls {check : String → Option Bool × List DriveCall}
    {P : DriveCall → Prop} (h : ∀ p c, c ∈ (check p).2 → P c) :
    ∀ (ps : List String) (c : DriveCall), c ∈ (scanParents check ps).2 → P c := by
  intro ps
  induction ps with
  | nil => intro c hc; simp [scanParents] at hc
  | cons q qs ih =>
    intro c hc
    cases hcq : check q with
    | mk r t =>
      cases r with
      | none =>
        rw [scanParents, hcq] at hc
        exact h q c (by rw [hcq]; exact hc)
      | some b =>
        cases b with
        | true =>
          rw [scanParents, hcq] at hc
          exact h q c (by rw [hcq]; exact hc)
        | false =>
          cases hs : scanParents check qs with
          | mk r2 t2 =>
            rw [scanParents, hcq, hs] at hc
            simp only [List.mem_append] at hc
            rcases hc with hc | hc
            · exact h q c (by rw [hcq]; exact hc)
            · exact ih c (by rw [hs]; exact hc)

/-- Every provider call made by the ancestor walk is a metadata
(`getDriveFileInfo`) lookup. -/
theorem isUnderDefaultFolder_calls {env : DriveEnv} {root : String} :
    ∀ (fuel : Nat) (f : String) (c : DriveCall),
    c ∈ (isUnderDefaultFolder env root fuel f).2 → ∃ g, c = DriveCall.getFileInfo g := by
  intro fuel
  induction fuel with
  | zero => intro f c hc; simp [isUnderDefaultFolder] at hc
  | succ k ih =>
    intro f c hc
    by_cases hfr : f = root
    · simp [isUnderDefaultFolder, hfr] at hc
    · cases hgp : env.getParents f with
      | error e =>
        rw [isUnderDefaultFolder] at hc
        simp [hfr, hgp] at hc
        exact ⟨f, hc⟩
      | ok po =>
        cases po with
        | none =>
          rw [isUnderDefaultFolder] at hc
          simp [hfr, hgp] at hc
          exact ⟨f, hc⟩
        | some ps =>
          cases hemp : ps.isEmpty with
          | true =>
            rw [isUnderDefaultFolder] at hc
            simp [hfr, hgp, hemp] at hc
            exact ⟨f, hc⟩
          | false =>
            cases hs : scanParents (isUnderDefaultFolder env root k) ps with
            | mk r t =>
              rw [isUnderDefaultFolder] at hc
              simp [hfr, hgp, hemp, hs] at hc
              rcases hc with hc | hc
              · exact ⟨f, hc⟩
              · exact scanParents_calls (fun p c hc => ih p c hc) ps c (by rw [hs]; exact hc)

/-- Every provider call made by `validateFolder` is a metadata lookup. -/
theorem validateFolder_calls {env : DriveEnv} {fuel : Nat} {folderId d : String}
    (c : DriveCall) (hc : c ∈ (validateFolder env fuel folderId d).2) :
    ∃ g, c = DriveCall.getFileInfo g := by
  rw [validateFolder] at hc
  by_cases h0 : folderId = "" ∨ folderId = d
  · simp [h0] at hc
  · simp only [h0, if_false] at hc
    cases hgi : env.getFileInfo folderId with
    | error e =>
      rw [hgi] at hc
      simp at hc
      exact ⟨folderId, hc⟩
    | ok u =>
      rw [hgi] at hc
      cases hs : isUnderDefaultFolder env d fuel folderId with
      | mk r t =>
        rw [hs] at hc
        cases r with
        | none =>
          simp at hc
          rcases hc with hc | hc
          · exact ⟨folderId, hc⟩
          · exact isUnderDefaultFolder_calls fuel folderId c (by rw [hs]; exact hc)
        | some b =>
          cases b with
          | true =>
            simp at hc
            rcases hc with hc | hc
            · exact ⟨folderId, hc⟩
            · exact isUnderDefaultFolder_calls fuel folderId c (by rw [hs]; exact hc)
          | false =>
            simp at hc
            rcases hc with hc | hc
            · exact ⟨folderId, hc⟩
            · exact isUnderDefaultFolder_calls fuel folderId c (by rw [hs]; exact hc)

/-- The function `findExistingFile` performs exactly one listing call. -/
theorem findExistingFile_calls (env : DriveEnv) (fileName parentFolderId : String) :
    (findExistingFile env fileName parentFolderId).2 =
      [DriveCall.listFiles parentFolderId] := by
  rw [findExistingFile]
  split
  · rfl
  · split
    · rfl
    · rfl

/-- The deletion loop issues exactly one delete call per file, in order,
whatever the individual outcomes. -/
theorem deleteFilesLoop_calls (env : DriveEnv) :
    ∀ fs : List DriveFile, (deleteFilesLoop env fs).2.2 =
      fs.map (fun f => DriveCall.deleteFile f.id) := by
  intro fs
  induction fs with
  | nil => rfl
  | cons f rest ih =>
    rw [deleteFilesLoop]
    cases hd : env.deleteFile f.id with
    | ok u =>
      cases hl : deleteFilesLoop env rest with
      | mk n e =>
        cases e with
        | mk errs calls =>
          simp only [List.map_cons]
          rw [hl] at ih
          simp only at ih
          rw [ih]
    | error e =>
      cases hl : deleteFilesLoop env rest with
      | mk n e2 =>
        cases e2 with
        | mk errs calls =>
          simp only [List.map_cons]
          rw [hl] at ih
          simp only at ih
          rw [ih]

/-- The function `deletedIds` distributes over trace concatenation. -/
theorem deletedIds_append (t1 t2 : List DriveCall) :
    deletedIds (t1 ++ t2) = deletedIds t1 ++ deletedIds t2 := by
  induction t1 with
  | nil => rfl
  | cons c cs ih =>
    cases c with
    | refreshToken => simpa [deletedIds] using ih
    | getFileInfo g => simpa [deletedIds] using ih
    | listFiles p => simpa [deletedIds] using ih
    | deleteFile i => simp [deletedIds, ih]
    | upload p i => simpa [deletedIds] using ih

/-- A trace of metadata lookups deletes nothing. -/
theorem deletedIds_of_getInfo (t : List DriveCall)
    (h : ∀ c ∈ t, ∃ g, c = DriveCall.getFileInfo g) : deletedIds t = [] := by
  induction t with
  | nil => rfl
  | cons c cs ih =>
    obtain ⟨g, hg⟩ := h c (List.mem_cons_self c cs)
    subst hg
    simpa [deletedIds] using ih (fun c hc => h c (List.mem_cons_of_mem _ hc))

/-- The delete calls of a per-file deletion trace are exactly the files'
ids, in order. -/
theorem deletedIds_map (fs : List DriveFile) :
    deletedIds (fs.map (fun f => DriveCall.deleteFile f.id)) =
      fs.map (fun f => f.id) := by
  induction fs with
  | nil => rfl
  | cons f rest ih => simp [deletedIds, ih]

/-- On a successful listing, `findExistingFile` returns the id of the first
exact-name match (if any), with exactly one listing call. -/
theorem findExistingFile_ok {env : DriveEnv} {p : String} {fs : List DriveFile}
    (h : env.listFiles p = Except.ok fs) (fileName : String) :
    findExistingFile env fileName p =
      ((fs.filter (fun g => g.name = fileName)).head?.map DriveFile.id,
       [DriveCall.listFiles p]) := by
  rw [findExistingFile, h]
  cases hf : fs.filter (fun g => g.name = fileName) with
  | nil => simp [hf]
  | cons f rest => simp [hf]

/-- A falsy folder id, or one equal to the default, validates immediately
with no provider call. -/
theorem validateFolder_trivial {env : DriveEnv} {fuel : Nat} {folderId d : String}
    (h : folderId = "" ∨ folderId = d) :
    validateFolder env fuel folderId d =
      (some { valid := true, error := none, details := none }, []) := by
  rw [validateFolder, if_pos h]

/-- With `overwrite = false`, every call `processFileUpload` makes is the
token refresh, a metadata lookup from validation, or the final upload with
no target file id. -/
theorem processFileUpload_no_overwrite_calls (env : DriveEnv) (fuel : Nat)
    (file : Option FileData) (folderId d : String) :
    ∀ c ∈ (processFileUpload env fuel file folderId false d).2,
      c = DriveCall.refreshToken ∨ (∃ g, c = DriveCall.getFileInfo g) ∨
      (∃ p, c = DriveCall.upload p none) := by
  intro c hc
  unfold processFileUpload at hc
  cases file with
  | none => simp at hc
  | some f =>
    cases htok : env.getToken with
    | error e =>
      rw [htok] at hc
      simp at hc
      exact Or.inl hc
    | ok tok =>
      rw [htok] at hc
      simp only [Bool.false_eq_true, if_false] at hc
      cases hv : validateFolder env fuel (if folderId = "" then d else folderId) d with
      | mk vo t =>
        rw [hv] at hc
        have ht : ∀ c ∈ t, ∃ g, c = DriveCall.getFileInfo g := by
          intro c hc
          exact validateFolder_calls c (by rw [hv]; exact hc)
        cases vo with
        | none =>
          simp at hc
          rcases hc with hc | hc
          · exact Or.inl hc
          · exact Or.inr (Or.inl (ht c hc))
        | some v =>
          cases hvb : v.valid with
          | false =>
            simp [hvb] at hc
            rcases hc with hc | hc
            · exact Or.inl hc
            · exact Or.inr (Or.inl (ht c hc))
          | true =>
            cases hup : env.uploadFile (if folderId = "" then d else folderId) none with
            | error e2 =>
              simp [hvb, hup] at hc
              rcases hc with hc | hc | hc
              · exact Or.inl hc
              · exact Or.inr (Or.inl (ht c hc))
              · exact Or.inr (Or.inr ⟨_, hc⟩)
            | ok u =>
              simp [hvb, hup] at hc
              rcases hc with hc | hc | hc
              · exact Or.inl hc
              · exact Or.inr (Or.inl (ht c hc))
              · exact Or.inr (Or.inr ⟨_, hc⟩)

/-- With no folder id supplied, `processFileUpload` validates against the
default folder trivially: every call it makes is the token refresh, the
overwrite search, or the upload — never a scope-walk metadata lookup. -/
theorem processFileUpload_empty_folder_calls (env : DriveEnv) (fuel : Nat)
    (file : Option FileData) (ov : Bool) (d : String) :
    ∀ c ∈ (processFileUpload env fuel file "" ov d).2,
      c = DriveCall.refreshToken ∨ (∃ p, c = DriveCall.listFiles p) ∨
      (∃ p i, c = DriveCall.upload p i) := by
  intro c hc
  unfold processFileUpload at hc
  cases file with
  | none => simp at hc
  | some f =>
    cases htok : env.getToken with
    | error e =>
      simp [htok] at hc
      exact Or.inl hc
    | ok tok =>
      have hv : validateFolder env fuel d d =
          (some { valid := true, error := none, details := none }, []) :=
        validateFolder_trivial (Or.inr rfl)
      cases ov with
      | false =>
        cases hup : env.uploadFile d none with
        | error e2 =>
          simp [htok, hv, hup] at hc
          rcases hc with hc | hc
          · exact Or.inl hc
          · exact Or.inr (Or.inr ⟨d, none, hc⟩)
        | ok u =>
          simp [htok, hv, hup] at hc
          rcases hc with hc | hc
          · exact Or.inl hc
          · exact Or.inr (Or.inr ⟨d, none, hc⟩)
      | true =>
        cases hfind : findExistingFile env (effectiveFileName f) d with
        | mk r1 t2 =>
          have ht2 : t2 = [DriveCall.listFiles d] := by
            have h1 := findExistingFile_calls env (effectiveFileName f) d
            rw [hfind] at h1
            exact h1
          cases hup : env.uploadFile d r1 with
          | error e2 =>
            simp [htok, hv, hfind, ht2, hup] at hc
            rcases hc with hc | hc | hc
            · exact Or.inl hc
            · exact Or.inr (Or.inl ⟨d, hc⟩)
            · exact Or.inr (Or.inr ⟨d, r1, hc⟩)
          | ok u =>
            simp [htok, hv, hfind, ht2, hup] at hc
            rcases hc with hc | hc | hc
            · exact Or.inl hc
            · exact Or.inr (Or.inl ⟨d, hc⟩)
            · exact Or.inr (Or.inr ⟨d, r1, hc⟩)

/-! ### Claim theorems -/

/-- C1: every folder whose parent chain transitively reaches the root is
judged in scope by `isUnderDefaultFolder` (whenever the walk returns at
all, it returns true); parents are scanned in the returned order with
short-circuit on the first in-scope parent, and false only once all
parents are exhausted without success. -/
theorem scope_guard_reaches_root {env : DriveEnv} {root f : String} {n fuel : Nat}
    (h1 : ChainToRoot env root f n) (h2 : n < fuel)
    (h3 : (isUnderDefaultFolder env root fuel f).1 ≠ none) :
    (isUnderDefaultFolder env root fuel f).1 = some true ∧
    (∀ (check : String → Option Bool × List DriveCall) (p : String)
        (ps : List String) (t : List DriveCall), check p = (some true, t) →
        scanParents check (p :: ps) = (some true, t)) ∧
    (∀ (check : String → Option Bool × List DriveCall) (ps : List String),
        (∀ q ∈ ps, (check q).1 = some false) →
        (scanParents check ps).1 = some false) :=
  ⟨chain_reaches_true h1 h2 h3,
   fun check p ps t h => scanParents_shortcircuit check p ps t h,
   fun check ps h => scanParents_all_false check ps h⟩

/-- Witness for C1 at the concrete chain `C → R` with root `R`. -/
theorem scope_guard_reaches_root_witness :
    (isUnderDefaultFolder envChain "R" 2 "C").1 = some true ∧
    (∀ (check : String → Option Bool × List DriveCall) (p : String)
        (ps : List String) (t : List DriveCall), check p = (some true, t) →
        scanParents check (p :: ps) = (some true, t)) ∧
    (∀ (check : String → Option Bool × List DriveCall) (ps : List String),
        (∀ q ∈ ps, (check q).1 = some false) →
        (scanParents check ps).1 = some false) :=
  scope_guard_reaches_root
    (ChainToRoot.step "C" "R" ["R"] 0 rfl (by decide) ChainToRoot.refl)
    (by decide) (by decide)

/-- C2: the guard never throws — a parent-lookup failure folds to false for
that branch, so when every lookup fails and the folder differs from the
root the answer is false (deny on uncertainty), after the one failed
lookup. -/
theorem scope_guard_deny_on_failure {env : DriveEnv} {root f : String} {fuel : Nat}
    (hfail : ∀ g, ∃ e, env.getParents g = Except.error e)
    (hne : f ≠ root) (hfuel : 0 < fuel) :
    isUnderDefaultFolder env root fuel f = (some false, [DriveCall.getFileInfo f]) := by
  cases fuel with
  | zero => omega
  | succ k =>
    obtain ⟨e, he⟩ := hfail f
    simp [isUnderDefaultFolder, hne, he]

/-- Witness for C2 in the environment where every lookup fails. -/
theorem scope_guard_deny_on_failure_witness :
    (∀ g, ∃ e, envAllFail.getParents g = Except.error e) ∧ ("X" : String) ≠ "R" ∧
    isUnderDefaultFolder envAllFail "R" 1 "X" =
      (some false, [DriveCall.getFileInfo "X"]) :=
  ⟨fun _ => ⟨DriveErr.network, rfl⟩, by decide,
   scope_guard_deny_on_failure (fun _ => ⟨DriveErr.network, rfl⟩) (by decide) (by decide)⟩

/-- C4: querying the root itself is authorized immediately, with zero
provider calls. -/
theorem scope_guard_root_fast_path (env : DriveEnv) (root : String) {fuel : Nat}
    (hfuel : 0 < fuel) :
    isUnderDefaultFolder env root fuel root = (some true, []) := by
  cases fuel with
  | zero => omega
  | succ k => simp [isUnderDefaultFolder]

/-- Witness for C4 at root `R`. -/
theorem scope_guard_root_fast_path_witness :
    0 < 1 ∧ isUnderDefaultFolder envChain "R" 1 "R" = (some true, []) :=
  ⟨by decide, scope_guard_root_fast_path envChain "R" (by decide)⟩

/-- C5: a folder different from the root whose parent list is absent or
empty is out of scope. -/
theorem scope_guard_orphan_false {env : DriveEnv} {root f : String} {fuel : Nat}
    (hne : f ≠ root)
    (hp : env.getParents f = Except.ok none ∨ env.getParents f = Except.ok (some []))
    (hfuel : 0 < fuel) :
    isUnderDefaultFolder env root fuel f = (some false, [DriveCall.getFileInfo f]) := by
  cases fuel with
  | zero => omega
  | succ k =>
    rcases hp with hp | hp
    · simp [isUnderDefaultFolder, hne, hp]
    · simp [isUnderDefaultFolder, hne, hp]

/-- Witness for C5 at the parentless folder `P`. -/
theorem scope_guard_orphan_false_witness :
    ("P" : String) ≠ "R" ∧ envOrphan.getParents "P" = Except.ok (some []) ∧
    isUnderDefaultFolder envOrphan "R" 1 "P" =
      (some false, [DriveCall.getFileInfo "P"]) :=
  ⟨by decide, rfl,
   scope_guard_orphan_false (by decide) (Or.inr rfl) (by decide)⟩

/-- C8 counterexample: on the cyclic parent graph where every folder is its
own parent, the ancestor walk never returns — there is no constant depth
ceiling at which the source aborts with false. -/
theorem scope_guard_cycle_diverges : divergesOn envCycle "R" "A" := by
  intro fuel
  induction fuel with
  | zero => rfl
  | succ k ih =>
    cases hs : isUnderDefaultFolder envCycle "R" k "A" with
    | mk r t =>
      rw [hs] at ih
      simp only at ih
      subst ih
      rw [isUnderDefaultFolder]
      simp [scanParents, hs, (by decide : ("A" : String) ≠ "R"),
        (show envCycle.getParents "A" = Except.ok (some ["A"]) from rfl)]

/-- C8 amended: the recursion has no constant ceiling; it is bounded only
by the parent graph itself — when a rank strictly decreases along parent
links, the walk returns once the fuel exceeds the start folder's rank. -/
theorem scope_guard_depth_bounded_termination {env : DriveEnv} {rank : String → Nat}
    {root f : String} {fuel : Nat}
    (hr : RankedParents env rank) (hlt : rank f < fuel) :
    (isUnderDefaultFolder env root fuel f).1 ≠ none :=
  ranked_terminates hr fuel f root hlt

/-- Witness for the amended C8 on a graph with no successful parent edges
(rank constantly zero). -/
theorem scope_guard_depth_bounded_termination_witness :
    RankedParents envAllFail (fun _ => 0) ∧ 0 < 1 ∧
    (isUnderDefaultFolder envAllFail "R" 1 "X").1 ≠ none :=
  ⟨fun _ _ hps => absurd hps (by simp [envAllFail]),
   by decide,
   @scope_guard_depth_bounded_termination envAllFail (fun _ => 0) "R" "X" 1
     (fun _ _ hps => absurd hps (by simp [envAllFail])) (by decide)⟩

/-- C3 counterexample: with overwrite requested and a failing listing call,
`processFileUpload` reports success and uploads as a CREATE (no target file
id) — no distinct search error is propagated. -/
theorem upload_search_failure_silently_creates :
    envSearchFail.listFiles "R" = Except.error DriveErr.network ∧
    processFileUpload envSearchFail 1 (some { name := "a.txt" }) "" true "R" =
      (some (Except.ok { success := true, error := none, details := none }),
       [DriveCall.refreshToken, DriveCall.listFiles "R",
        DriveCall.upload "R" none]) :=
  ⟨rfl, rfl⟩

/-- C3 amended: a failed overwrite search is swallowed — `findExistingFile`
folds the listing error to null, and `processFileUpload` proceeds to create
a new file and reports success; no `SearchFailed` error reaches the caller. -/
theorem upload_search_failure_returns_null {env : DriveEnv} {tok d : String}
    {e : DriveErr} {f : FileData} {fuel : Nat}
    (htok : env.getToken = Except.ok tok)
    (hlist : env.listFiles d = Except.error e)
    (hup : env.uploadFile d none = Except.ok ()) :
    findExistingFile env (effectiveFileName f) d = (none, [DriveCall.listFiles d]) ∧
    processFileUpload env fuel (some f) "" true d =
      (some (Except.ok { success := true, error := none, details := none }),
       [DriveCall.refreshToken, DriveCall.listFiles d, DriveCall.upload d none]) := by
  have hfind : findExistingFile env (effectiveFileName f) d =
      (none, [DriveCall.listFiles d]) := by
    rw [findExistingFile, hlist]
  refine ⟨hfind, ?_⟩
  have hv : validateFolder env fuel d d =
      (some { valid := true, error := none, details := none }, []) :=
    validateFolder_trivial (Or.inr rfl)
  unfold processFileUpload
  simp [htok, hv, hfind, hup]

/-- Witness for the amended C3 in the environment whose listings all fail. -/
theorem upload_search_failure_returns_null_witness :
    envSearchFail.getToken = Except.ok "tok" ∧
    envSearchFail.listFiles "F" = Except.error DriveErr.network ∧
    envSearchFail.uploadFile "F" none = Except.ok () ∧
    (findExistingFile envSearchFail (effectiveFileName { name := "b.txt" }) "F" =
       (none, [DriveCall.listFiles "F"]) ∧
     processFileUpload envSearchFail 0 (some { name := "b.txt" }) "" true "F" =
       (some (Except.ok { success := true, error := none, details := none }),
        [DriveCall.refreshToken, DriveCall.listFiles "F",
         DriveCall.upload "F" none])) :=
  ⟨rfl, rfl, rfl, upload_search_failure_returns_null rfl rfl rfl⟩

/-- C6: with overwrite not requested, the upload path performs no listing
call at all, and any upload it issues carries no target file id (CREATE). -/
theorem upload_no_overwrite_never_searches (env : DriveEnv) (fuel : Nat)
    (file : Option FileData) (folderId d : String) :
    (∀ p, DriveCall.listFiles p ∉
        (processFileUpload env fuel file folderId false d).2) ∧
    (∀ p i, DriveCall.upload p (some i) ∉
        (processFileUpload env fuel file folderId false d).2) := by
  constructor
  · intro p hp
    rcases processFileUpload_no_overwrite_calls env fuel file folderId d _ hp with
      h | ⟨g, h⟩ | ⟨q, h⟩ <;> simp at h
  · intro p i hp
    rcases processFileUpload_no_overwrite_calls env fuel file folderId d _ hp with
      h | ⟨g, h⟩ | ⟨q, h⟩ <;> simp at h

/-- C7: with overwrite requested and a successful listing, the resolver
filters by exact (case-sensitive) name equality and targets the first
match's id in listing order (UPDATE), or none (CREATE) when nothing
matches. -/
theorem upload_overwrite_selects_first_match {env : DriveEnv} {tok d : String}
    {f : FileData} {fs : List DriveFile} {fuel : Nat}
    (htok : env.getToken = Except.ok tok)
    (hlist : env.listFiles d = Except.ok fs)
    (hup : env.uploadFile d
        (((fs.filter (fun g => g.name = effectiveFileName f)).head?).map DriveFile.id) =
      Except.ok ()) :
    (findExistingFile env (effectiveFileName f) d).1 =
      ((fs.filter (fun g => g.name = effectiveFileName f)).head?).map DriveFile.id ∧
    processFileUpload env fuel (some f) "" true d =
      (some (Except.ok { success := true, error := none, details := none }),
       [DriveCall.refreshToken, DriveCall.listFiles d,
        DriveCall.upload d
          (((fs.filter (fun g => g.name = effectiveFileName f)).head?).map DriveFile.id)]) := by
  have hfind := findExistingFile_ok hlist (effectiveFileName f)
  refine ⟨by rw [hfind], ?_⟩
  have hv : validateFolder env fuel d d =
      (some { valid := true, error := none, details := none }, []) :=
    validateFolder_trivial (Or.inr rfl)
  have hup2 : env.uploadFile d (Option.map DriveFile.id
      (List.find? (fun g => decide (g.name = effectiveFileName f)) fs)) =
      Except.ok () := by
    simpa using hup
  unfold processFileUpload
  simp [htok, hv, hfind, hup2]

/-- Witness for C7 on a listing with two children both named `a.txt`: the
first returned (`x`) wins. -/
theorem upload_overwrite_selects_first_match_witness :
    envDup.getToken = Except.ok "tok" ∧
    envDup.listFiles "F" =
      Except.ok [{ id := "x", name := "a.txt", mimeType := none },
                 { id := "y", name := "a.txt", mimeType := none }] ∧
    envDup.uploadFile "F" (some "x") = Except.ok () ∧
    ((findExistingFile envDup "a.txt" "F").1 = some "x" ∧
     processFileUpload envDup 0 (some { name := "a.txt" }) "" true "F" =
       (some (Except.ok { success := true, error := none, details := none }),
        [DriveCall.refreshToken, DriveCall.listFiles "F",
         DriveCall.upload "F" (some "x")])) :=
  ⟨rfl, rfl, rfl,
   @upload_overwrite_selects_first_match envDup "tok" "F" { name := "a.txt" }
     [{ id := "x", name := "a.txt", mimeType := none },
      { id := "y", name := "a.txt", mimeType := none }] 0 rfl rfl rfl⟩

/-- C9: an empty (falsy) folder id validates immediately with no provider
call, exactly as the default folder id itself does, and the upload path
with no folder id performs no scope-check lookup at all. -/
theorem upload_empty_folder_trusted (env : DriveEnv) (fuel : Nat) (d : String)
    (file : Option FileData) (ov : Bool) :
    validateFolder env fuel "" d =
      (some { valid := true, error := none, details := none }, []) ∧
    validateFolder env fuel d d =
      (some { valid := true, error := none, details := none }, []) ∧
    (∀ g, DriveCall.getFileInfo g ∉ (processFileUpload env fuel file "" ov d).2) := by
  refine ⟨validateFolder_trivial (Or.inl rfl), validateFolder_trivial (Or.inr rfl), ?_⟩
  intro g hg
  rcases processFileUpload_empty_folder_calls env fuel file ov d _ hg with
    h | ⟨p, h⟩ | ⟨p, i, h⟩ <;> simp at h

/-- C10: on an authorized folder with a successful listing,
`deleteFolderContents` issues delete calls exactly for the non-folder
children (subfolders are never deleted) and reports success regardless of
individual deletion outcomes. -/
theorem delete_folder_contents_spares_folders {env : DriveEnv} {tok folderId d : String}
    {fuel : Nat} {fs : List DriveFile}
    (hid : folderId ≠ "")
    (htok : env.getToken = Except.ok tok)
    (hscope : (isUnderDefaultFolder env d fuel folderId).1 = some true)
    (hlist : env.listFiles folderId = Except.ok fs) :
    ∃ out : DeleteOutcome,
      (deleteFolderContents env fuel folderId d).1 = some (Except.ok out) ∧
      out.success = true ∧ out.error = none ∧
      deletedIds (deleteFolderContents env fuel folderId d).2 =
        (nonFolderFiles fs).map (fun f => f.id) := by
  cases hs : isUnderDefaultFolder env d fuel folderId with
  | mk r t =>
    rw [hs] at hscope
    simp only at hscope
    subst hscope
    cases hloop : deleteFilesLoop env (nonFolderFiles fs) with
    | mk n rest =>
      cases rest with
      | mk errs calls =>
        have hcalls : calls =
            (nonFolderFiles fs).map (fun f => DriveCall.deleteFile f.id) := by
          have h1 := deleteFilesLoop_calls env (nonFolderFiles fs)
          rw [hloop] at h1
          exact h1
        have heq : deleteFolderContents env fuel folderId d =
            (some (Except.ok { success := true,
                               message := "Deleted " ++ toString n ++
                                 " files from folder. " ++
                                 (if errs.length > 0 then
                                    "Errors: " ++ toString errs.length
                                  else ""),
                               error := none, details := none }),
             DriveCall.refreshToken ::
               (t ++ (DriveCall.listFiles folderId :: calls))) := by
          unfold deleteFolderContents
          simp [hid, htok, hs, hlist, hloop]
        rw [heq]
        refine ⟨_, rfl, rfl, rfl, ?_⟩
        have ht : deletedIds t = [] :=
          deletedIds_of_getInfo t (fun c hc =>
            isUnderDefaultFolder_calls fuel folderId c (by rw [hs]; exact hc))
        simp [deletedIds, deletedIds_append, ht, hcalls, deletedIds_map]

/-- Witness for C10 on a folder containing a subfolder and two files, one
of whose deletions fails. -/
theorem delete_folder_contents_spares_folders_witness :
    ("D" : String) ≠ "" ∧
    envDelete.getToken = Except.ok "tok" ∧
    (isUnderDefaultFolder envDelete "R" 2 "D").1 = some true ∧
    envDelete.listFiles "D" =
      Except.ok [{ id := "sub", name := "Sub", mimeType := some folderMime },
                 { id := "f1", name := "a", mimeType := some "text/plain" },
                 { id := "f2", name := "b", mimeType := none }] ∧
    (∃ out : DeleteOutcome,
      (deleteFolderContents envDelete 2 "D" "R").1 = some (Except.ok out) ∧
      out.success = true ∧ out.error = none ∧
      deletedIds (deleteFolderContents envDelete 2 "D" "R").2 =
        (nonFolderFiles
          [{ id := "sub", name := "Sub", mimeType := some folderMime },
           { id := "f1", name := "a", mimeType := some "text/plain" },
           { id := "f2", name := "b", mimeType := none }]).map (fun f => f.id)) :=
  ⟨by decide, rfl, by decide, rfl,
   delete_folder_contents_spares_folders (by decide) rfl (by decide) rfl⟩
